import Mathlib

/-!
Verification development for the NeoLocOne authorization and federated-session
core. The definitions below are a shallow embedding of the in-memory storage
layer (`src/server/storage.ts`, class `MemStorage`) and of the HTTP handler
logic in `src/server/routes.ts` and the route registration module that carries
the SSO endpoints. JavaScript `Map` tables are embedded as Lean lists of
records; timestamps (`Date`) are embedded as `Nat` milliseconds; the signed
JWT layer is embedded by letting a token value be its own claim set, with
`jwt.verify` checking only the embedded expiry claim (forged tokens are not
modelled, which matches the claims under study, all of which concern
signature-valid tokens). Presentation-only record fields (icons, colors,
display names of modules) that no modelled operation reads are omitted.
-/

namespace NeoLoc

/-- User record, from the `users` table of `src/shared/schema.ts`. -/
structure User where
  id : String
  email : String
  password : String
  fullName : String
  role : String
  isActive : Bool
  moduleAccess : List String
deriving DecidableEq, Repr

/-- Role record, from the `roles` table of `src/shared/schema.ts`. -/
structure Role where
  id : String
  name : String
  displayName : String
  description : String
  isSystem : Bool
deriving DecidableEq, Repr

/-- Permission record, from the `permissions` table of `src/shared/schema.ts`. -/
structure Permission where
  id : String
  name : String
  resource : String
  action : String
deriving DecidableEq, Repr

/-- Role-to-permission edge, from the `rolePermissions` table. -/
structure RolePermission where
  id : String
  roleId : String
  permissionId : String
deriving DecidableEq, Repr

/-- User-to-role edge, from the `userRoles` table. -/
structure UserRole where
  id : String
  userId : String
  roleId : String
  assignedBy : String
deriving DecidableEq, Repr

/-- Module record, from the `modules` table (fields read by the modelled code). -/
structure Module where
  id : String
  name : String
  url : String
  isActive : Bool
deriving DecidableEq, Repr

/-- Claim set of a primary session JWT, as signed by the login handler:
`jwt.sign(\x7b userId, email, role \x7d, JWT_SECRET, expiresIn 24h)`. The
`exp` field is the absolute expiry instant of the embedded expiry claim. -/
structure PrimaryClaims where
  userId : String
  email : String
  role : String
  exp : Nat
deriving DecidableEq, Repr

/-- Session row, from the `sessions` table; the token is the lookup key. -/
structure Session where
  id : String
  userId : String
  token : PrimaryClaims
  expiresAt : Nat
deriving DecidableEq, Repr

/-- Claim set of an SSO JWT, as signed by the SSO token generation endpoints:
userId, moduleId, email, fullName, role, a literal type tag, and the expiry. -/
structure SsoClaims where
  userId : String
  moduleId : String
  email : String
  fullName : String
  role : String
  type : String
  exp : Nat
deriving DecidableEq, Repr

/-- SSO token row, from the `ssoTokens` table of `src/shared/schema.ts`:
nullable `usedAt` redemption timestamp plus redemption IP and user agent. -/
structure SsoToken where
  id : String
  userId : String
  moduleId : String
  token : SsoClaims
  expiresAt : Nat
  usedAt : Option Nat
  ipAddress : Option String
  userAgent : Option String
deriving DecidableEq, Repr

/-- The in-memory storage state: the private `Map` fields of `MemStorage`
(`src/server/storage.ts`), each embedded as a list of rows, plus the
`ssoTokens` table declared in `src/shared/schema.ts`. -/
structure MemStorage where
  users : List User
  modules : List Module
  sessions : List Session
  roles : List Role
  permissions : List Permission
  rolePermissions : List RolePermission
  userRoles : List UserRole
  ssoTokens : List SsoToken
deriving DecidableEq, Repr

/-- `MemStorage.getUser`: `this.users.get(id)`. -/
def getUser (st : MemStorage) (id : String) : Option User :=
  st.users.find? (fun u => decide (u.id = id))

/-- `MemStorage.getUserRoles`: filter the `userRoles` edges by user id, map to
role ids, look each up in the `roles` map, and drop misses (`filter(Boolean)`). -/
def getUserRoles (st : MemStorage) (userId : String) : List Role :=
  ((st.userRoles.filter (fun ur => decide (ur.userId = userId))).map
      (fun ur => ur.roleId)).filterMap
    (fun rid => st.roles.find? (fun r => decide (r.id = rid)))

/-- `MemStorage.getRolePermissions`: filter the `rolePermissions` edges by role
id, map to permission ids, look each up in the `permissions` map, drop misses. -/
def getRolePermissions (st : MemStorage) (roleId : String) : List Permission :=
  ((st.rolePermissions.filter (fun rp => decide (rp.roleId = roleId))).map
      (fun rp => rp.permissionId)).filterMap
    (fun pid => st.permissions.find? (fun p => decide (p.id = pid)))

/-- JavaScript `Map.set` on an insertion-ordered map embedded as an entry
list: if the key is present its value is replaced in place, otherwise the
entry is appended. Used by `MemStorage.getUserPermissions`. -/
def mapSetEntry (m : List (String × Permission)) (k : String) (v : Permission) :
    List (String × Permission) :=
  if m.any (fun e => decide (e.1 = k)) then
    m.map (fun e => if e.1 = k then (k, v) else e)
  else m ++ [(k, v)]

/-- `MemStorage.getUserPermissions`: iterate the roles of the user, insert
every permission of every role into a `Map` keyed by `permission.id`, and
return the values of that map. -/
def getUserPermissions (st : MemStorage) (userId : String) : List Permission :=
  ((getUserRoles st userId).foldl
      (fun acc role =>
        (getRolePermissions st role.id).foldl
          (fun a p => mapSetEntry a p.id p) acc)
      []).map Prod.snd

/-- `MemStorage.userHasPermission`: false for a missing or inactive user, true
for an active administrator before any RBAC lookup, otherwise an exact
resource and action match over the effective permission set. -/
def userHasPermission (st : MemStorage) (userId resource action : String) : Bool :=
  match getUser st userId with
  | none => false
  | some user =>
    if user.isActive = false then false
    else if user.role = "administrator" then true
    else (getUserPermissions st userId).any
      (fun p => decide (p.resource = resource) && decide (p.action = action))

/-- `MemStorage.userHasRole`: true iff some role assigned to the user through
the `userRoles` edges has the given name; no administrator bypass here. -/
def userHasRole (st : MemStorage) (userId roleName : String) : Bool :=
  (getUserRoles st userId).any (fun r => decide (r.name = roleName))

/-- The `requireRole` middleware gate of the route modules: the request is
rejected with 403 iff `!hasRole && req.user.role !== "administrator"`, so it
is allowed iff the user has the role or the primary role is administrator. -/
def requireRoleAllows (st : MemStorage) (user : User) (roleName : String) : Bool :=
  if userHasRole st user.id roleName = false ∧ user.role ≠ "administrator" then
    false
  else true

/-- `MemStorage.deleteRole`: returns false without touching anything when the
role is missing or `isSystem`; otherwise deletes every `rolePermissions` and
`userRoles` edge referencing the role, then deletes the role itself and
returns the result of that `Map.delete` (true iff the key was present). -/
def deleteRole (st : MemStorage) (id : String) : Bool × MemStorage :=
  match st.roles.find? (fun r => decide (r.id = id)) with
  | none => (false, st)
  | some role =>
    if role.isSystem then (false, st)
    else
      let st1 : MemStorage :=
        { st with
          rolePermissions :=
            st.rolePermissions.filter (fun rp => !decide (rp.roleId = id)),
          userRoles :=
            st.userRoles.filter (fun ur => !decide (ur.roleId = id)) }
      (st1.roles.any (fun r => decide (r.id = id)),
       { st1 with roles := st1.roles.filter (fun r => !decide (r.id = id)) })

/-- JavaScript `String.prototype.startsWith`, embedded as a character-list
prefix test so that concrete instances evaluate inside proofs. -/
def strStartsWith (s pre : String) : Bool :=
  pre.data.isPrefixOf s.data

/-- The `accessibleModules` set built by `MemStorage.getModulesForUser`: for
each effective permission whose action is read, write or admin and whose
resource is not in the `system.` namespace, add the resource to the set. -/
def accessibleResources (perms : List Permission) : List String :=
  perms.foldl
    (fun acc p =>
      if p.action = "read" ∨ p.action = "write" ∨ p.action = "admin" then
        if strStartsWith p.resource "system." = false then
          if p.resource ∈ acc then acc else acc ++ [p.resource]
        else acc
      else acc)
    []

/-- `MemStorage.getModulesForUser`: empty for a missing user; every active
module for an administrator; otherwise the active modules whose name is in
the accessible-resource set computed from the RBAC effective permissions.
The direct `user.moduleAccess` grant list is never consulted. -/
def getModulesForUser (st : MemStorage) (userId : String) : List Module :=
  match getUser st userId with
  | none => []
  | some user =>
    if user.role = "administrator" then
      st.modules.filter (fun m => m.isActive)
    else
      let accessible := accessibleResources (getUserPermissions st userId)
      st.modules.filter (fun m => m.isActive && decide (m.name ∈ accessible))

/-- `jwt.verify` on a primary session token: the signature always checks for a
token produced by `jwt.sign` with the server secret, so verification succeeds
exactly while the embedded expiry claim has not elapsed. -/
def jwtVerifyPrimary (tok : PrimaryClaims) (now : Nat) : Option PrimaryClaims :=
  if now < tok.exp then some tok else none

/-- `MemStorage.getSessionByToken`: return the session while its stored expiry
is in the future; an expired entry is deleted on the way out. -/
def getSessionByToken (st : MemStorage) (tok : PrimaryClaims) (now : Nat) :
    Option Session × MemStorage :=
  match st.sessions.find? (fun s => decide (s.token = tok)) with
  | some s =>
    if now < s.expiresAt then (some s, st)
    else (none,
      { st with sessions := st.sessions.filter (fun s2 => !decide (s2.token = tok)) })
  | none => (none, st)

/-- `MemStorage.deleteSession`: `this.sessions.delete(token)`, returning
whether the key was present. -/
def deleteSession (st : MemStorage) (tok : PrimaryClaims) : Bool × MemStorage :=
  (st.sessions.any (fun s => decide (s.token = tok)),
   { st with sessions := st.sessions.filter (fun s => !decide (s.token = tok)) })

/-- Outcome of the `POST /api/auth/validate` handler. -/
inductive ValidateResult where
  | ok (user : User)
  | unauthorized
deriving DecidableEq, Repr

/-- The `POST /api/auth/validate` handler of `src/server/routes.ts`: verify the
JWT (a throw is caught and answered 401), then look the session row up by
token, then re-read the user and require it present and active. -/
def authValidateHandler (st : MemStorage) (tok : PrimaryClaims) (now : Nat) :
    ValidateResult × MemStorage :=
  match jwtVerifyPrimary tok now with
  | none => (ValidateResult.unauthorized, st)
  | some _ =>
    match getSessionByToken st tok now with
    | (none, st1) => (ValidateResult.unauthorized, st1)
    | (some sess, st1) =>
      match getUser st1 sess.userId with
      | none => (ValidateResult.unauthorized, st1)
      | some user =>
        if user.isActive then (ValidateResult.ok user, st1)
        else (ValidateResult.unauthorized, st1)

/-- `jwt.verify` on an SSO token, as for the primary token: success exactly
while the embedded expiry claim has not elapsed. -/
def jwtVerifySso (tok : SsoClaims) (now : Nat) : Option SsoClaims :=
  if now < tok.exp then some tok else none

/-- Modelled from the spec: `storage.validateSsoToken(token, moduleId)`, whose
implementation is not part of the sources at hand (only its call site in the
`POST /api/sso/validate-token` handler is). Per the spec it looks the SsoToken
row up by the token string scoped to the module id and fails if the row is
absent, already expired, or already redeemed (`usedAt` non-null). -/
def validateSsoToken (st : MemStorage) (tok : SsoClaims) (moduleId : String)
    (now : Nat) : Option SsoToken :=
  match st.ssoTokens.find?
      (fun t => decide (t.token = tok) && decide (t.moduleId = moduleId)) with
  | none => none
  | some row =>
    if row.usedAt.isSome then none
    else if now < row.expiresAt then some row
    else none

/-- Modelled from the spec: `storage.markSsoTokenAsUsed(token, ip, userAgent)`,
whose implementation is not part of the sources at hand. Per the spec it marks
the row of the given token as redeemed by writing `usedAt` together with the
redemption IP and user agent. -/
def markSsoTokenAsUsed (st : MemStorage) (tok : SsoClaims) (now : Nat)
    (ip ua : String) : MemStorage :=
  { st with ssoTokens := st.ssoTokens.map (fun t =>
      if t.token = tok then
        { t with usedAt := some now, ipAddress := some ip, userAgent := some ua }
      else t) }

/-- Outcome of the `POST /api/sso/validate-token` handler. All failure
constructors are answered with HTTP 401; they are distinguished here the way
the handler distinguishes its response messages. -/
inductive RedeemResult where
  | ok (id email fullName role : String) (moduleAccess : List String)
  | tokenInvalid
  | userInactive
deriving DecidableEq, Repr

/-- True exactly on the success outcome of a redemption. -/
def RedeemResult.isOk : RedeemResult → Bool
  | RedeemResult.ok _ _ _ _ _ => true
  | _ => false

/-- The `POST /api/sso/validate-token` handler: verify the JWT (a throw is
caught and answered 401), reject when the embedded type is not `sso` or the
embedded module id differs from the caller-supplied one, look the row up via
`validateSsoToken`, re-read the user from the principal store and require it
present and active, then mark the row used and answer with the user
projection id, email, fullName, role and moduleAccess. -/
def ssoValidateTokenHandler (st : MemStorage) (tok : SsoClaims)
    (moduleId : String) (now : Nat) (ip ua : String) :
    RedeemResult × MemStorage :=
  match jwtVerifySso tok now with
  | none => (RedeemResult.tokenInvalid, st)
  | some decoded =>
    if decoded.type ≠ "sso" ∨ decoded.moduleId ≠ moduleId then
      (RedeemResult.tokenInvalid, st)
    else
      match validateSsoToken st tok moduleId now with
      | none => (RedeemResult.tokenInvalid, st)
      | some _ =>
        match getUser st decoded.userId with
        | none => (RedeemResult.userInactive, st)
        | some user =>
          if user.isActive = false then (RedeemResult.userInactive, st)
          else
            (RedeemResult.ok user.id user.email user.fullName user.role
              user.moduleAccess,
             markSsoTokenAsUsed st tok now ip ua)

/-- Per-request control point of a redemption request running against the
shared store. The handler body awaits three storage operations in sequence
(`validateSsoToken`, `getUser`, `markSsoTokenAsUsed`); each await is a point
where another request may run, so the request is split into three atomic
steps. `pc = 0` is before the check step, `1` before the user read, `2`
before the mark write, `3` finished with `result` set. -/
structure SsoRequestState where
  pc : Nat
  result : Option RedeemResult
deriving DecidableEq, Repr

/-- One atomic step of the `POST /api/sso/validate-token` handler against the
shared store: the stateless JWT and claim checks together with the
`validateSsoToken` read, then the `getUser` read, then the
`markSsoTokenAsUsed` write and the success response. Mirrors the branches of
`ssoValidateTokenHandler` step by step. -/
def ssoRedeemStep (st : MemStorage) (q : SsoRequestState) (tok : SsoClaims)
    (moduleId : String) (now : Nat) (ip ua : String) :
    SsoRequestState × MemStorage :=
  match q.pc with
  | 0 =>
    match jwtVerifySso tok now with
    | none => (⟨3, some RedeemResult.tokenInvalid⟩, st)
    | some decoded =>
      if decoded.type ≠ "sso" ∨ decoded.moduleId ≠ moduleId then
        (⟨3, some RedeemResult.tokenInvalid⟩, st)
      else
        match validateSsoToken st tok moduleId now with
        | none => (⟨3, some RedeemResult.tokenInvalid⟩, st)
        | some _ => (⟨1, none⟩, st)
  | 1 =>
    match getUser st tok.userId with
    | none => (⟨3, some RedeemResult.userInactive⟩, st)
    | some user =>
      if user.isActive = false then (⟨3, some RedeemResult.userInactive⟩, st)
      else (⟨2, none⟩, st)
  | 2 =>
    match getUser st tok.userId with
    | none => (⟨3, some RedeemResult.userInactive⟩, st)
    | some user =>
      (⟨3, some (RedeemResult.ok user.id user.email user.fullName user.role
          user.moduleAccess)⟩,
       markSsoTokenAsUsed st tok now ip ua)
  | _ => (q, st)

/-- Run two concurrent redemption requests for the same token under a given
interleaving schedule: `true` lets the first request take its next atomic
step, `false` the second. Returns both request states and the final store. -/
def runTwoRedeems (sched : List Bool) (st : MemStorage)
    (qA qB : SsoRequestState) (tok : SsoClaims) (moduleId : String)
    (now : Nat) (ip ua : String) :
    SsoRequestState × SsoRequestState × MemStorage :=
  match sched with
  | [] => (qA, qB, st)
  | b :: rest =>
    if b then
      let r := ssoRedeemStep st qA tok moduleId now ip ua
      runTwoRedeems rest r.2 r.1 qB tok moduleId now ip ua
    else
      let r := ssoRedeemStep st qB tok moduleId now ip ua
      runTwoRedeems rest r.2 qA r.1 tok moduleId now ip ua

/-! Concrete fixtures used by the closed demonstration theorems and by the
witness theorems that instantiate the universally quantified results. -/

/-- A plain active viewer user. -/
def viewerUser : User :=
  { id := "u1", email := "viewer at neoloc", password := "hash1",
    fullName := "Viewer One", role := "viewer", isActive := true,
    moduleAccess := ["inventario", "compras"] }

/-- An active administrator user. -/
def adminUser : User :=
  { id := "a1", email := "admin at neoloc", password := "hash2",
    fullName := "Admin One", role := "administrator", isActive := true,
    moduleAccess := [] }

/-- A deactivated user. -/
def inactiveUser : User :=
  { id := "u2", email := "gone at neoloc", password := "hash3",
    fullName := "Gone Two", role := "viewer", isActive := false,
    moduleAccess := [] }

/-- An active user with direct legacy module grants but no RBAC role edges. -/
def legacyUser : User :=
  { id := "u3", email := "legacy at neoloc", password := "hash4",
    fullName := "Legacy Three", role := "operator", isActive := true,
    moduleAccess := ["inventario", "compras"] }

/-- The viewer role row. -/
def viewerRole : Role :=
  { id := "r1", name := "viewer", displayName := "Viewer",
    description := "Read-only access", isSystem := true }

/-- A custom, non-system role row. -/
def customRole : Role :=
  { id := "r2", name := "auditor", displayName := "Auditor",
    description := "Custom role", isSystem := false }

/-- A read permission on the inventario module. -/
def invReadPerm : Permission :=
  { id := "p1", name := "inventario.read", resource := "inventario",
    action := "read" }

/-- The inventario module row. -/
def invModule : Module :=
  { id := "m1", name := "inventario", url := "http://localhost:3001",
    isActive := true }

/-- SSO claims of a token minted for the viewer user on module m1. -/
def ssoTok : SsoClaims :=
  { userId := "u1", moduleId := "m1", email := "viewer at neoloc",
    fullName := "Viewer One", role := "viewer", type := "sso", exp := 300000 }

/-- The stored row of `ssoTok`, unexpired and unused. -/
def ssoRow : SsoToken :=
  { id := "t1", userId := "u1", moduleId := "m1", token := ssoTok,
    expiresAt := 300000, usedAt := none, ipAddress := none, userAgent := none }

/-- Store with the viewer user holding the viewer role granted
`inventario.read`, plus an unused SSO token row for that user. -/
def stRbac : MemStorage :=
  { users := [viewerUser, adminUser, inactiveUser, legacyUser],
    modules := [invModule],
    sessions := [],
    roles := [viewerRole, customRole],
    permissions := [invReadPerm],
    rolePermissions := [{ id := "rp1", roleId := "r1", permissionId := "p1" }],
    userRoles :=
      [{ id := "ur1", userId := "u1", roleId := "r1", assignedBy := "a1" },
       { id := "ur2", userId := "u2", roleId := "r2", assignedBy := "a1" }],
    ssoTokens := [ssoRow] }

/-- Store in which the administrator role edges have been emptied and no RBAC
edges exist at all; the admin user and the inactive user are present. -/
def stEmptyRbac : MemStorage :=
  { users := [adminUser, inactiveUser],
    modules := [invModule],
    sessions := [],
    roles := [viewerRole, customRole],
    permissions := [invReadPerm],
    rolePermissions := [],
    userRoles := [],
    ssoTokens := [] }

/-- SSO claims of a token minted for the inactive user. -/
def ssoTokInactive : SsoClaims :=
  { userId := "u2", moduleId := "m1", email := "gone at neoloc",
    fullName := "Gone Two", role := "viewer", type := "sso", exp := 300000 }

/-- The stored row of `ssoTokInactive`, unexpired and unused. -/
def ssoRowInactive : SsoToken :=
  { id := "t2", userId := "u2", moduleId := "m1", token := ssoTokInactive,
    expiresAt := 300000, usedAt := none, ipAddress := none, userAgent := none }

/-- Store holding the unused token row of the deactivated user. -/
def stInactive : MemStorage :=
  { stRbac with ssoTokens := [ssoRow, ssoRowInactive] }

/-- Claims of a primary session token for the viewer user. -/
def primaryTok : PrimaryClaims :=
  { userId := "u1", email := "viewer at neoloc", role := "viewer",
    exp := 86400000 }

/-! ## Theorems -/

/-- C3. `userHasPermission` is false for a missing user, false for an
inactive user, and true for an active user whose primary role is
administrator, for every resource and action and every store state; in
particular the administrator answer never consults the RBAC tables, so it is
true even in states where the administrator role has no permission edges. -/
theorem userHasPermission_admin_bypass (st : MemStorage)
    (userId resource action : String) (u : User) :
    (getUser st userId = none → userHasPermission st userId resource action = false)
    ∧ (getUser st userId = some u → u.isActive = false →
        userHasPermission st userId resource action = false)
    ∧ (getUser st userId = some u → u.isActive = true →
        u.role = "administrator" →
        userHasPermission st userId resource action = true) := by
  refine ⟨fun h => ?_, fun h hin => ?_, fun h hact hrole => ?_⟩ <;>
    simp [userHasPermission, h, *]

/-- Witness for C3 at a concrete store: the missing user, the deactivated
user and the administrator in a store whose RBAC edge tables are empty. -/
theorem userHasPermission_admin_bypass_witness :
    userHasPermission stEmptyRbac "nobody" "inventario" "read" = false
    ∧ userHasPermission stEmptyRbac "u2" "inventario" "read" = false
    ∧ userHasPermission stEmptyRbac "a1" "inventario" "delete" = true := by
  refine ⟨?_, ?_, ?_⟩
  · exact (userHasPermission_admin_bypass stEmptyRbac "nobody" "inventario"
      "read" adminUser).1 (by decide)
  · exact (userHasPermission_admin_bypass stEmptyRbac "u2" "inventario"
      "read" inactiveUser).2.1 (by decide) (by decide)
  · exact (userHasPermission_admin_bypass stEmptyRbac "a1" "inventario"
      "delete" adminUser).2.2 (by decide) (by decide) (by decide)

/-- C5. After `deleteSession` (the logout path) removes the session row of a
token, the `POST /api/auth/validate` handler answers 401 for that token in
every case, even when the signature still verifies and the embedded expiry
claim has not elapsed: validation always requires the stateful session-row
lookup to succeed in addition to the signature check. -/
theorem validate_fails_after_logout (st : MemStorage) (tok : PrimaryClaims)
    (now : Nat) :
    (authValidateHandler (deleteSession st tok).2 tok now).1
      = ValidateResult.unauthorized := by
  have hfind : ((deleteSession st tok).2).sessions.find?
      (fun s => decide (s.token = tok)) = none := by
    rw [List.find?_eq_none]
    intro s hs
    have h2 := (List.mem_filter.mp hs).2
    simpa using h2
  by_cases hexp : now < tok.exp <;>
    simp [authValidateHandler, jwtVerifyPrimary, getSessionByToken, hexp, hfind]

/-- C6. The SSO redemption handler answers `tokenInvalid` whenever the token
claims carry a module id other than the caller-supplied one or a type tag
other than `sso`, regardless of the store state, so in particular also for a
token that is signature-valid, unexpired and unused. -/
theorem sso_redeem_module_scoping (st : MemStorage) (tok : SsoClaims)
    (moduleId : String) (now : Nat) (ip ua : String)
    (h : tok.moduleId ≠ moduleId ∨ tok.type ≠ "sso") :
    (ssoValidateTokenHandler st tok moduleId now ip ua).1
      = RedeemResult.tokenInvalid := by
  rcases h with h | h <;> by_cases hexp : now < tok.exp <;>
    simp [ssoValidateTokenHandler, jwtVerifySso, hexp, h]

/-- Witness for C6: the token minted for module m1, signature-valid,
unexpired and unused in the store, is rejected when presented for module m2. -/
theorem sso_redeem_module_scoping_witness :
    (ssoValidateTokenHandler stRbac ssoTok "m2" 100 "ip" "ua").1
      = RedeemResult.tokenInvalid :=
  sso_redeem_module_scoping stRbac ssoTok "m2" 100 "ip" "ua"
    (Or.inl (by decide))

/-- C7. The role gate enforced by the `requireRole` middleware admits a
request exactly when the primary role of the user is administrator or some
role assigned to the user through the RBAC graph bears the required name. -/
theorem require_role_gate_iff (st : MemStorage) (u : User) (n : String) :
    requireRoleAllows st u n = true ↔
      (u.role = "administrator"
        ∨ ∃ r, r ∈ getUserRoles st u.id ∧ r.name = n) := by
  simp only [requireRoleAllows, userHasRole]
  by_cases hadmin : u.role = "administrator"
  · simp [hadmin]
  · simp [hadmin, List.any_eq_true]

/-- C9. When the SSO token claims are well-formed for the target module, the
signature verifies, and the stored row is still redeemable, but the principal
store holds no active user under the embedded user id at redemption time
(whether the user was deleted or merely deactivated after minting), the
handler answers `userInactive`; the activity check reads the store, not the
role and email snapshot embedded in the claims. -/
theorem sso_redeem_rechecks_user (st : MemStorage) (tok : SsoClaims)
    (moduleId : String) (now : Nat) (ip ua : String)
    (htype : tok.type = "sso") (hmod : tok.moduleId = moduleId)
    (hexp : now < tok.exp)
    (hrow : (validateSsoToken st tok moduleId now).isSome = true)
    (huser : ∀ u, getUser st tok.userId = some u → u.isActive = false) :
    (ssoValidateTokenHandler st tok moduleId now ip ua).1
      = RedeemResult.userInactive := by
  obtain ⟨row, hval⟩ := Option.isSome_iff_exists.mp hrow
  cases hu : getUser st tok.userId with
  | none =>
    simp [ssoValidateTokenHandler, jwtVerifySso, hexp, htype, hmod, hval, hu]
  | some u =>
    have : u.isActive = false := huser u hu
    simp [ssoValidateTokenHandler, jwtVerifySso, hexp, htype, hmod, hval, hu,
      this]

/-- Witness for C9: the token of the deactivated user u2, unexpired and
unused in the store, is rejected with the user-inactive outcome. -/
theorem sso_redeem_rechecks_user_witness :
    (ssoValidateTokenHandler stInactive ssoTokInactive "m1" 100 "ip" "ua").1
      = RedeemResult.userInactive :=
  sso_redeem_rechecks_user stInactive ssoTokInactive "m1" 100 "ip" "ua"
    (by decide) (by decide) (by decide) (by decide)
    (by
      intro u hu
      have h0 : getUser stInactive ssoTokInactive.userId = some inactiveUser := by
        decide
      rw [h0] at hu
      injection hu with h
      subst h
      decide)

/-- C8. `deleteRole` on an existing role: when the role is a system role it
returns false and the whole store is untouched; otherwise it returns true and
the post-state keeps exactly the roles other than the deleted one, exactly
the role-permission edges and user-role edges not referencing it, and leaves
the user, permission, module, session and SSO tables unchanged. -/
theorem delete_role_cascade (st : MemStorage) (id : String) (r : Role)
    (hfind : st.roles.find? (fun ro => decide (ro.id = id)) = some r) :
    (r.isSystem = true → deleteRole st id = (false, st))
    ∧ (r.isSystem = false →
        (deleteRole st id).1 = true
        ∧ (∀ ro, ro ∈ (deleteRole st id).2.roles ↔ ro ∈ st.roles ∧ ro.id ≠ id)
        ∧ (∀ rp, rp ∈ (deleteRole st id).2.rolePermissions ↔
            rp ∈ st.rolePermissions ∧ rp.roleId ≠ id)
        ∧ (∀ ur, ur ∈ (deleteRole st id).2.userRoles ↔
            ur ∈ st.userRoles ∧ ur.roleId ≠ id)
        ∧ (deleteRole st id).2.users = st.users
        ∧ (deleteRole st id).2.permissions = st.permissions
        ∧ (deleteRole st id).2.modules = st.modules
        ∧ (deleteRole st id).2.sessions = st.sessions
        ∧ (deleteRole st id).2.ssoTokens = st.ssoTokens) := by
  constructor
  · intro hsys
    simp [deleteRole, hfind, hsys]
  · intro hsys
    have hmem : r ∈ st.roles := List.mem_of_find?_eq_some hfind
    have hpred := List.find?_some hfind
    have hany : st.roles.any (fun ro => decide (ro.id = id)) = true :=
      List.any_eq_true.mpr ⟨r, hmem, hpred⟩
    refine ⟨?_, ?_, ?_, ?_, ?_, ?_, ?_, ?_, ?_⟩ <;>
      simp [deleteRole, hfind, hsys, hany, List.mem_filter, and_comm]

/-- Witness for C8: deleting the system role r1 is refused and a no-op, while
deleting the custom role r2 reports success. -/
theorem delete_role_cascade_witness :
    deleteRole stRbac "r1" = (false, stRbac)
    ∧ (deleteRole stRbac "r2").1 = true := by
  constructor
  · exact (delete_role_cascade stRbac "r1" viewerRole (by decide)).1 (by decide)
  · exact ((delete_role_cascade stRbac "r2" customRole (by decide)).2
      (by decide)).1

/-- Every SSO row bearing the marked token carries `usedAt` after
`markSsoTokenAsUsed`. -/
theorem mark_sets_usedAt (st : MemStorage) (tok : SsoClaims) (now : Nat)
    (ip ua : String) (row : SsoToken)
    (hmem : row ∈ (markSsoTokenAsUsed st tok now ip ua).ssoTokens)
    (htok : row.token = tok) : row.usedAt = some now := by
  simp only [markSsoTokenAsUsed] at hmem
  obtain ⟨r0, hr0, hr0eq⟩ := List.mem_map.mp hmem
  by_cases h0 : r0.token = tok
  · rw [if_pos h0] at hr0eq
    rw [← hr0eq]
  · rw [if_neg h0] at hr0eq
    rw [← hr0eq] at htok
    exact absurd htok h0

/-- After `markSsoTokenAsUsed` has stamped the rows of a token, a later
`validateSsoToken` for that token fails for every module id and time, because
every stored row bearing the token has a non-null `usedAt`. -/
theorem validateSsoToken_after_mark (st : MemStorage) (tok : SsoClaims)
    (m2 : String) (now now2 : Nat) (ip ua : String) :
    validateSsoToken (markSsoTokenAsUsed st tok now ip ua) tok m2 now2
      = none := by
  generalize hst2 : markSsoTokenAsUsed st tok now ip ua = st2
  unfold validateSsoToken
  cases hf : st2.ssoTokens.find?
      (fun t => decide (t.token = tok) && decide (t.moduleId = m2)) with
  | none => simp [hf]
  | some row =>
    have hpred := List.find?_some hf
    have hmem := List.mem_of_find?_eq_some hf
    have hboth : row.token = tok ∧ row.moduleId = m2 := by
      simpa using hpred
    have htok : row.token = tok := hboth.1
    rw [← hst2] at hmem
    have hused : row.usedAt = some now :=
      mark_sets_usedAt st tok now ip ua row hmem htok
    simp [hf, hused]

/-- When the SSO redemption handler succeeds, its post-state is the store
with the redeemed token marked used. -/
theorem sso_handler_state_of_ok (st : MemStorage) (tok : SsoClaims)
    (m : String) (now : Nat) (ip ua : String)
    (h : ((ssoValidateTokenHandler st tok m now ip ua).1).isOk = true) :
    (ssoValidateTokenHandler st tok m now ip ua).2
      = markSsoTokenAsUsed st tok now ip ua := by
  unfold ssoValidateTokenHandler at h ⊢
  cases hv : jwtVerifySso tok now with
  | none => rw [hv] at h; simp [RedeemResult.isOk] at h
  | some decoded =>
    rw [hv] at h
    dsimp only at h ⊢
    by_cases hc : decoded.type ≠ "sso" ∨ decoded.moduleId ≠ m
    · rw [if_pos hc] at h; simp [RedeemResult.isOk] at h
    · rw [if_neg hc] at h ⊢
      cases hval : validateSsoToken st tok m now with
      | none => rw [hval] at h; simp [RedeemResult.isOk] at h
      | some row =>
        rw [hval] at h
        dsimp only at h ⊢
        cases hu : getUser st decoded.userId with
        | none => rw [hu] at h; simp [RedeemResult.isOk] at h
        | some user =>
          rw [hu] at h
          dsimp only at h ⊢
          by_cases ha : user.isActive = false
          · rw [if_pos ha] at h; simp [RedeemResult.isOk] at h
          · rw [if_neg ha]

/-- C1. Single use: once one call of the `POST /api/sso/validate-token`
handler has succeeded for a token, every later call of the handler on the
resulting store with the same token answers `tokenInvalid`, for every module
id and every later time, in particular also for the same module within the
validity window of the token and also after its expiry has passed. -/
theorem sso_token_single_use (st : MemStorage) (tok : SsoClaims)
    (m m2 : String) (now now2 : Nat) (ip ua ip2 ua2 : String)
    (h : ((ssoValidateTokenHandler st tok m now ip ua).1).isOk = true) :
    (ssoValidateTokenHandler (ssoValidateTokenHandler st tok m now ip ua).2
        tok m2 now2 ip2 ua2).1 = RedeemResult.tokenInvalid := by
  rw [sso_handler_state_of_ok st tok m now ip ua h]
  unfold ssoValidateTokenHandler
  cases hv : jwtVerifySso tok now2 with
  | none => rfl
  | some decoded =>
    dsimp only
    by_cases hc : decoded.type ≠ "sso" ∨ decoded.moduleId ≠ m2
    · rw [if_pos hc]
    · rw [if_neg hc, validateSsoToken_after_mark]

/-- Witness for C1: in the concrete store the first redemption of the token
succeeds, and the very next redemption of the same token to the same module
well inside the validity window is rejected. -/
theorem sso_token_single_use_witness :
    ((ssoValidateTokenHandler stRbac ssoTok "m1" 100 "ip" "ua").1).isOk = true
    ∧ (ssoValidateTokenHandler
        (ssoValidateTokenHandler stRbac ssoTok "m1" 100 "ip" "ua").2
        ssoTok "m1" 200 "ip" "ua").1 = RedeemResult.tokenInvalid :=
  ⟨by decide,
   sso_token_single_use stRbac ssoTok "m1" "m1" 100 200 "ip" "ua" "ip" "ua"
     (by decide)⟩

/-- C2. The redemption critical section is not atomic: the handler awaits the
`validateSsoToken` read, the `getUser` read and the `markSsoTokenAsUsed`
write as three separate storage operations, so under the interleaving in
which both concurrent requests pass the check step before either reaches the
mark step, both redemptions of the same valid token report success — the
claimed compare-and-set behaviour, under which exactly one may succeed,
does not hold. -/
theorem sso_redeem_race_both_succeed :
    ((runTwoRedeems [true, false, true, false, true, false] stRbac
        ⟨0, none⟩ ⟨0, none⟩ ssoTok "m1" 100 "ip" "ua").1).result
      = some (RedeemResult.ok "u1" "viewer at neoloc" "Viewer One" "viewer"
          ["inventario", "compras"])
    ∧ ((runTwoRedeems [true, false, true, false, true, false] stRbac
        ⟨0, none⟩ ⟨0, none⟩ ssoTok "m1" 100 "ip" "ua").2.1).result
      = some (RedeemResult.ok "u1" "viewer at neoloc" "Viewer One" "viewer"
          ["inventario", "compras"]) := by
  constructor <;> decide

/-- Every permission returned by `getRolePermissions` is the value the
permissions map yields for its own id. -/
theorem getRolePermissions_canonical (st : MemStorage) (rid : String)
    (p : Permission) (hp : p ∈ getRolePermissions st rid) :
    st.permissions.find? (fun q => decide (q.id = p.id)) = some p := by
  unfold getRolePermissions at hp
  obtain ⟨pid, hpid, hfind⟩ := List.mem_filterMap.mp hp
  have hpred := List.find?_some hfind
  have hid : p.id = pid := by simpa using hpred
  rw [← hid] at hfind
  exact hfind

/-- Two permissions that the permissions map yields for their own ids and
that share an id are equal. -/
theorem canonical_unique (st : MemStorage) (p q : Permission)
    (hp : st.permissions.find? (fun r => decide (r.id = p.id)) = some p)
    (hq : st.permissions.find? (fun r => decide (r.id = q.id)) = some q)
    (hid : p.id = q.id) : p = q := by
  rw [hid] at hp
  have := hp.symm.trans hq
  exact Option.some.inj this

/-- When the key of the inserted permission is already present in a map
whose entries are canonical, `Map.set` leaves the entry list unchanged and
the inserted value is already among the values. -/
theorem mapSetEntry_eq_self (st : MemStorage)
    (acc : List (String × Permission)) (p : Permission)
    (hacc : ∀ e ∈ acc,
      st.permissions.find? (fun q => decide (q.id = e.2.id)) = some e.2
        ∧ e.2.id = e.1)
    (hp : st.permissions.find? (fun q => decide (q.id = p.id)) = some p)
    (hany : acc.any (fun e => decide (e.1 = p.id)) = true) :
    mapSetEntry acc p.id p = acc ∧ p ∈ acc.map Prod.snd := by
  obtain ⟨e0, he0, hpred⟩ := List.any_eq_true.mp hany
  have hk : e0.1 = p.id := by simpa using hpred
  have he0c := hacc e0 he0
  have heq0 : e0.2 = p := canonical_unique st e0.2 p he0c.1 hp (he0c.2.trans hk)
  constructor
  · unfold mapSetEntry
    rw [if_pos hany]
    have hpt : ∀ e ∈ acc, (if e.1 = p.id then (p.id, p) else e) = id e := by
      intro e he
      by_cases hek : e.1 = p.id
      · rw [if_pos hek]
        have hec := hacc e he
        have he2 : e.2 = p := canonical_unique st e.2 p hec.1 hp (hec.2.trans hek)
        show (p.id, p) = e
        rw [← hek, ← he2]
      · rw [if_neg hek]
        rfl
    rw [List.map_congr_left hpt, List.map_id]
  · exact List.mem_map.mpr ⟨e0, he0, heq0⟩

/-- When the key of the inserted permission is absent, `Map.set` appends the
new entry. -/
theorem mapSetEntry_append (acc : List (String × Permission)) (p : Permission)
    (hany : acc.any (fun e => decide (e.1 = p.id)) = false) :
    mapSetEntry acc p.id p = acc ++ [(p.id, p)] := by
  simp only [mapSetEntry, hany]
  rfl

/-- Behaviour of the permission-collecting fold of `getUserPermissions` over
any list of canonical permissions, for every canonical accumulator: the
values of the resulting map are exactly the old values together with the
folded permissions, canonicity of entries is preserved, and distinctness of
the keys is preserved. -/
theorem foldPerm_spec (st : MemStorage) (l : List Permission) :
    ∀ acc : List (String × Permission),
      (∀ e ∈ acc,
        st.permissions.find? (fun q => decide (q.id = e.2.id)) = some e.2
          ∧ e.2.id = e.1) →
      (∀ p ∈ l,
        st.permissions.find? (fun q => decide (q.id = p.id)) = some p) →
      (∀ v, v ∈ (l.foldl (fun a p => mapSetEntry a p.id p) acc).map Prod.snd ↔
          v ∈ acc.map Prod.snd ∨ v ∈ l)
      ∧ (∀ e ∈ l.foldl (fun a p => mapSetEntry a p.id p) acc,
          st.permissions.find? (fun q => decide (q.id = e.2.id)) = some e.2
            ∧ e.2.id = e.1)
      ∧ ((acc.map Prod.fst).Nodup →
          ((l.foldl (fun a p => mapSetEntry a p.id p) acc).map Prod.fst).Nodup)
    := by
  induction l with
  | nil =>
    intro acc hacc hl
    exact ⟨by simp, hacc, fun h => h⟩
  | cons p l ih =>
    intro acc hacc hl
    have hpcan := hl p (by simp)
    have hltail : ∀ q ∈ l,
        st.permissions.find? (fun r => decide (r.id = q.id)) = some q :=
      fun q hq => hl q (by simp [hq])
    by_cases hany : acc.any (fun e => decide (e.1 = p.id)) = true
    · obtain ⟨heq, hmemp⟩ := mapSetEntry_eq_self st acc p hacc hpcan hany
      have hfold : (p :: l).foldl (fun a q => mapSetEntry a q.id q) acc
          = l.foldl (fun a q => mapSetEntry a q.id q) acc := by
        rw [List.foldl_cons, heq]
      obtain ⟨ihmem, ihwf, ihnd⟩ := ih acc hacc hltail
      refine ⟨?_, ?_, ?_⟩
      · intro v
        rw [hfold, ihmem v]
        constructor
        · rintro (h | h)
          · exact Or.inl h
          · exact Or.inr (by simp [h])
        · rintro (h | h)
          · exact Or.inl h
          · rcases List.mem_cons.mp h with h | h
            · subst h
              exact Or.inl hmemp
            · exact Or.inr h
      · rw [hfold]
        exact ihwf
      · rw [hfold]
        exact ihnd
    · have hany2 : acc.any (fun e => decide (e.1 = p.id)) = false :=
        Bool.eq_false_iff.mpr hany
      have heq := mapSetEntry_append acc p hany2
      have hacc2 : ∀ e ∈ acc ++ [(p.id, p)],
          st.permissions.find? (fun q => decide (q.id = e.2.id)) = some e.2
            ∧ e.2.id = e.1 := by
        intro e he
        rcases List.mem_append.mp he with h | h
        · exact hacc e h
        · have he2 : e = (p.id, p) := by simpa using h
          subst he2
          exact ⟨hpcan, rfl⟩
      obtain ⟨ihmem, ihwf, ihnd⟩ := ih (acc ++ [(p.id, p)]) hacc2 hltail
      have hfold : (p :: l).foldl (fun a q => mapSetEntry a q.id q) acc
          = l.foldl (fun a q => mapSetEntry a q.id q) (acc ++ [(p.id, p)]) := by
        rw [List.foldl_cons, heq]
      refine ⟨?_, ?_, ?_⟩
      · intro v
        rw [hfold, ihmem v]
        simp only [List.map_append, List.mem_append, List.map_cons,
          List.map_nil, List.mem_singleton, List.mem_cons]
        constructor
        · rintro (h | h)
          · rcases h with h | h
            · exact Or.inl h
            · exact Or.inr (Or.inl (by simpa using h))
          · exact Or.inr (Or.inr h)
        · rintro (h | h | h)
          · exact Or.inl (Or.inl h)
          · exact Or.inl (Or.inr (by simp [h]))
          · exact Or.inr h
      · rw [hfold]
        exact ihwf
      · intro hnd
        rw [hfold]
        apply ihnd
        have hnotmem : p.id ∉ acc.map Prod.fst := by
          intro hm
          obtain ⟨e, he, hke⟩ := List.mem_map.mp hm
          have : acc.any (fun e => decide (e.1 = p.id)) = true :=
            List.any_eq_true.mpr ⟨e, he, by simp [hke]⟩
          exact hany this
        simp [List.nodup_append, hnd, hnotmem]

/-- Folding the permissions of each role in turn equals folding the
concatenation of the role permission lists. -/
theorem nested_foldl_flat (st : MemStorage) (rs : List Role) :
    ∀ acc : List (String × Permission),
      rs.foldl (fun acc r =>
        (getRolePermissions st r.id).foldl (fun a p => mapSetEntry a p.id p) acc) acc
      = (rs.flatMap (fun r => getRolePermissions st r.id)).foldl
          (fun a p => mapSetEntry a p.id p) acc := by
  induction rs with
  | nil => intro acc; rfl
  | cons r rs ih =>
    intro acc
    rw [List.foldl_cons, List.flatMap_cons, List.foldl_append, ih]

/-- C4. The effective permission set of a user is exactly the union over the
assigned roles of the role permission sets, holds no two entries with the
same permission id, and for an active non-administrator user the
authorization answer is an exact resource-and-action match over this set:
no deny mechanism, no wildcard, no action hierarchy. -/
theorem user_permissions_union (st : MemStorage)
    (userId resource action : String) (u : User) :
    (∀ p, p ∈ getUserPermissions st userId ↔
        ∃ r, r ∈ getUserRoles st userId ∧ p ∈ getRolePermissions st r.id)
    ∧ (getUserPermissions st userId).Pairwise (fun p q => p.id ≠ q.id)
    ∧ (getUser st userId = some u → u.isActive = true →
        u.role ≠ "administrator" →
        (userHasPermission st userId resource action = true ↔
          ∃ p, p ∈ getUserPermissions st userId
            ∧ p.resource = resource ∧ p.action = action)) := by
  have hl : ∀ p ∈ (getUserRoles st userId).flatMap
      (fun r => getRolePermissions st r.id),
      st.permissions.find? (fun q => decide (q.id = p.id)) = some p := by
    intro p hp
    obtain ⟨r, hr, hpr⟩ := List.mem_flatMap.mp hp
    exact getRolePermissions_canonical st r.id p hpr
  obtain ⟨hmem, hwf, hnd⟩ := foldPerm_spec st
    ((getUserRoles st userId).flatMap (fun r => getRolePermissions st r.id))
    [] (by simp) hl
  have hgup : getUserPermissions st userId
      = (((getUserRoles st userId).flatMap
            (fun r => getRolePermissions st r.id)).foldl
          (fun a p => mapSetEntry a p.id p) []).map Prod.snd := by
    unfold getUserPermissions
    rw [nested_foldl_flat]
  refine ⟨?_, ?_, ?_⟩
  · intro p
    rw [hgup, hmem p]
    simp [List.mem_flatMap]
  · rw [hgup]
    have hkeys := hnd (by simp)
    have hids : (((getUserRoles st userId).flatMap
          (fun r => getRolePermissions st r.id)).foldl
            (fun a p => mapSetEntry a p.id p) []).map (fun e => e.2.id)
        = (((getUserRoles st userId).flatMap
          (fun r => getRolePermissions st r.id)).foldl
            (fun a p => mapSetEntry a p.id p) []).map Prod.fst :=
      List.map_congr_left (fun e he => (hwf e he).2)
    have hnd2 : ((((getUserRoles st userId).flatMap
          (fun r => getRolePermissions st r.id)).foldl
            (fun a p => mapSetEntry a p.id p) []).map Prod.snd).map
          (fun p => p.id) = (((getUserRoles st userId).flatMap
          (fun r => getRolePermissions st r.id)).foldl
            (fun a p => mapSetEntry a p.id p) []).map (fun e => e.2.id) := by
      rw [List.map_map]
      rfl
    have hfinal : (((((getUserRoles st userId).flatMap
          (fun r => getRolePermissions st r.id)).foldl
            (fun a p => mapSetEntry a p.id p) []).map Prod.snd).map
          (fun p => p.id)).Nodup := by
      rw [hnd2, hids]
      exact hkeys
    exact List.pairwise_map.mp hfinal
  · intro hu hact hadmin
    unfold userHasPermission
    rw [hu]
    dsimp only
    rw [if_neg (by simp [hact]), if_neg hadmin]
    rw [List.any_eq_true]
    constructor
    · rintro ⟨p, hp, hcond⟩
      have hc : p.resource = resource ∧ p.action = action := by
        simpa using hcond
      exact ⟨p, hp, hc.1, hc.2⟩
    · rintro ⟨p, hp, hres, hact2⟩
      exact ⟨p, hp, by simp [hres, hact2]⟩

/-- Witness for C4 at the concrete store: the inventario read permission is
in the effective set of the viewer through the viewer role, and the
authorization answer for the active non-administrator matches it. -/
theorem user_permissions_union_witness :
    invReadPerm ∈ getUserPermissions stRbac "u1"
    ∧ userHasPermission stRbac "u1" "inventario" "read" = true := by
  constructor
  · exact ((user_permissions_union stRbac "u1" "inventario" "read"
      viewerUser).1 invReadPerm).mpr ⟨viewerRole, by decide, by decide⟩
  · exact ((user_permissions_union stRbac "u1" "inventario" "read"
      viewerUser).2.2 (by decide) (by decide) (by decide)).mpr
      ⟨invReadPerm, by decide, rfl, rfl⟩

/-- Membership in the accessible-resource fold of `getModulesForUser`, for
every accumulator: a name is collected exactly when it was already in the
accumulator or some folded permission grants read, write or admin on it
outside the `system.` namespace. -/
theorem accessibleResources_fold_mem (perms : List Permission) :
    ∀ (acc : List String) (v : String),
      v ∈ perms.foldl (fun acc p =>
        if p.action = "read" ∨ p.action = "write" ∨ p.action = "admin" then
          if strStartsWith p.resource "system." = false then
            if p.resource ∈ acc then acc else acc ++ [p.resource]
          else acc
        else acc) acc ↔
      v ∈ acc ∨ ∃ p, p ∈ perms
        ∧ (p.action = "read" ∨ p.action = "write" ∨ p.action = "admin")
        ∧ strStartsWith p.resource "system." = false
        ∧ p.resource = v := by
  induction perms with
  | nil =>
    intro acc v
    simp
  | cons p ps ih =>
    intro acc v
    rw [List.foldl_cons]
    by_cases h1 : p.action = "read" ∨ p.action = "write" ∨ p.action = "admin"
    · rw [if_pos h1]
      by_cases h2 : strStartsWith p.resource "system." = false
      · rw [if_pos h2]
        by_cases h3 : p.resource ∈ acc
        · rw [if_pos h3, ih]
          constructor
          · rintro (h | ⟨q, hq, hc⟩)
            · exact Or.inl h
            · exact Or.inr ⟨q, by simp [hq], hc⟩
          · rintro (h | ⟨q, hq, hc1, hc2, hc3⟩)
            · exact Or.inl h
            · rcases List.mem_cons.mp hq with rfl | hq
              · exact Or.inl (hc3 ▸ h3)
              · exact Or.inr ⟨q, hq, hc1, hc2, hc3⟩
        · rw [if_neg h3, ih]
          constructor
          · rintro (h | ⟨q, hq, hc⟩)
            · rcases List.mem_append.mp h with h | h
              · exact Or.inl h
              · have hv : v = p.resource := by simpa using h
                exact Or.inr ⟨p, by simp, h1, h2, hv.symm⟩
            · exact Or.inr ⟨q, by simp [hq], hc⟩
          · rintro (h | ⟨q, hq, hc1, hc2, hc3⟩)
            · exact Or.inl (List.mem_append.mpr (Or.inl h))
            · rcases List.mem_cons.mp hq with rfl | hq
              · exact Or.inl (List.mem_append.mpr (Or.inr (by simp [hc3])))
              · exact Or.inr ⟨q, hq, hc1, hc2, hc3⟩
      · rw [if_neg h2, ih]
        constructor
        · rintro (h | ⟨q, hq, hc⟩)
          · exact Or.inl h
          · exact Or.inr ⟨q, by simp [hq], hc⟩
        · rintro (h | ⟨q, hq, hc1, hc2, hc3⟩)
          · exact Or.inl h
          · rcases List.mem_cons.mp hq with rfl | hq
            · exact absurd hc2 h2
            · exact Or.inr ⟨q, hq, hc1, hc2, hc3⟩
    · rw [if_neg h1, ih]
      constructor
      · rintro (h | ⟨q, hq, hc⟩)
        · exact Or.inl h
        · exact Or.inr ⟨q, by simp [hq], hc⟩
      · rintro (h | ⟨q, hq, hc1, hc2, hc3⟩)
        · exact Or.inl h
        · rcases List.mem_cons.mp hq with rfl | hq
          · exact absurd hc1 h1
          · exact Or.inr ⟨q, hq, hc1, hc2, hc3⟩

/-- C10. For a non-administrator user the module listing is exactly the
active modules whose name carries some effective RBAC permission with action
read, write or admin outside the `system.` namespace; the direct
`moduleAccess` grant list of the user plays no part, and with an empty
effective permission set the listing is empty whatever `moduleAccess`
holds. -/
theorem modules_for_user_rbac_only (st : MemStorage) (userId : String)
    (u : User) (hu : getUser st userId = some u)
    (hadmin : u.role ≠ "administrator") :
    (∀ m, m ∈ getModulesForUser st userId ↔
        m ∈ st.modules ∧ m.isActive = true ∧
        ∃ p, p ∈ getUserPermissions st userId
          ∧ (p.action = "read" ∨ p.action = "write" ∨ p.action = "admin")
          ∧ strStartsWith p.resource "system." = false
          ∧ p.resource = m.name)
    ∧ (getUserPermissions st userId = [] → getModulesForUser st userId = [])
    := by
  have hmemacc : ∀ v, v ∈ accessibleResources (getUserPermissions st userId)
      ↔ ∃ p, p ∈ getUserPermissions st userId
        ∧ (p.action = "read" ∨ p.action = "write" ∨ p.action = "admin")
        ∧ strStartsWith p.resource "system." = false
        ∧ p.resource = v := by
    intro v
    have h := accessibleResources_fold_mem (getUserPermissions st userId) [] v
    simpa [accessibleResources] using h
  constructor
  · intro m
    unfold getModulesForUser
    rw [hu]
    dsimp only
    rw [if_neg hadmin, List.mem_filter]
    constructor
    · rintro ⟨hm, hcond⟩
      have hc : m.isActive = true
          ∧ m.name ∈ accessibleResources (getUserPermissions st userId) := by
        simpa using hcond
      exact ⟨hm, hc.1, (hmemacc m.name).mp hc.2⟩
    · rintro ⟨hm, hact, hex⟩
      refine ⟨hm, ?_⟩
      have : m.name ∈ accessibleResources (getUserPermissions st userId) :=
        (hmemacc m.name).mpr hex
      simp [hact, this]
  · intro hempty
    unfold getModulesForUser
    rw [hu]
    dsimp only
    rw [if_neg hadmin, hempty]
    simp [accessibleResources, List.filter_eq_nil_iff]

/-- Witness for C10: the viewer user with a read edge on inventario sees the
module; the legacy user, active with a populated direct `moduleAccess` list
but no RBAC edges, sees no modules at all. -/
theorem modules_for_user_rbac_only_witness :
    invModule ∈ getModulesForUser stRbac "u1"
    ∧ getModulesForUser stRbac "u3" = [] := by
  constructor
  · exact ((modules_for_user_rbac_only stRbac "u1" viewerUser (by decide)
      (by decide)).1 invModule).mpr
      ⟨by decide, by decide, invReadPerm, by decide, Or.inl rfl, by decide, rfl⟩
  · exact (modules_for_user_rbac_only stRbac "u3" legacyUser (by decide)
      (by decide)).2 (by decide)

end NeoLoc
